import Mathlib

/-!
Verification of the COVID tracking data pipeline (`process_covidtracking.py`).

The embedding models the two functions of the source:

* `GetData` (the Fetcher): cache-or-download of the raw JSON feed, modelled
  with an explicit file-system state.
* `ExtractDataFrame` (the Reshaper): turns the flat list of per-state-per-day
  JSON records into a table indexed by `(state, date)`, extracting ten metric
  columns via the static key mapping, filtering by a start date, sorting by
  date (then state, as pandas `sort_index(level=1)` with `sort_remaining`
  does), and deriving the `new_cases` column per state by differencing the
  `cum_positive` column along each state's own row sequence.

Numeric cells are `Option Int`: `none` models `np.nan`, the missing-value
marker.  Dates are a `(year, month, day)` structure ordered through the
numeral `year*10000 + month*100 + day`; `parseDate` models
`datetime.datetime.strptime(str(n), "%Y%m%d").date()`, returning `none`
exactly when `strptime` would raise.  Fallible steps return `Except String`:
`ExtractDataFrame` fails on the first unparseable date (as `strptime` raises
mid-loop) and on an empty row index (as `pd.MultiIndex.from_tuples([])`
raises `TypeError`).
-/

namespace Covid

/-- A table cell: a number or the missing-value marker `np.nan` (`none`). -/
abbrev Cell := Option Int

/-- A calendar date, as produced by `datetime.date`. -/
structure Date where
  year : Nat
  month : Nat
  day : Nat
deriving DecidableEq, Repr

/-- The numeral `yyyymmdd`; for the dates produced by `parseDate` (month and
day below 100), ordering these numerals is the calendar ordering used by
`datetime.date` comparison. -/
def Date.toNum (d : Date) : Nat := d.year * 10000 + d.month * 100 + d.day

/-- Gregorian leap-year test, as in `datetime`. -/
def isLeap (y : Nat) : Bool := (y % 4 == 0 && y % 100 != 0) || y % 400 == 0

/-- Number of days in a month, as validated by `strptime`. -/
def daysInMonth (y m : Nat) : Nat :=
  if m == 2 then (if isLeap y then 29 else 28)
  else if m == 4 || m == 6 || m == 9 || m == 11 then 30
  else 31

/-- Model of `datetime.datetime.strptime(str(n), "%Y%m%d").date()`: splits the
decimal numeral into year, month and day and validates the ranges; `none`
models `strptime` raising `ValueError`. -/
def parseDate (n : Nat) : Option Date :=
  let y := n / 10000
  let m := n / 100 % 100
  let d := n % 100
  if 1 ≤ y && n ≤ 99999999 && 1 ≤ m && m ≤ 12 && 1 ≤ d && d ≤ daysInMonth y m then
    some ⟨y, m, d⟩
  else none

/-- One JSON record of the feed: a state code, the raw integer date field, and
the open-ended field mapping.  A field value `none` models JSON `null` (Python
`None`); a field absent from the list models a key absent from the dict. -/
structure RawEntry where
  state : String
  dateRaw : Nat
  fields : List (String × Cell)
deriving DecidableEq, Repr

/-- The static mapping `keys` of the source: canonical output column name to
JSON field name, in source order. -/
def metricKeys : List (String × String) :=
  [("cum_positive", "positive"),
   ("cum_total", "total"),
   ("curr_hosp", "hospitalizedCurrently"),
   ("cum_hosp", "hospitalizedCumulative"),
   ("curr_icu", "inIcuCurrently"),
   ("cum_icu", "inIcuCumulative"),
   ("curr_vent", "onVentilatorCurrently"),
   ("cum_vent", "onVentilatorCumulative"),
   ("cum_death", "death"),
   ("new_death", "deathIncrease")]

/-- Dictionary lookup: `some v` when the key is present with value `v`
(where `v` itself is `none` for JSON `null`), `none` when the key is absent. -/
def getField (fields : List (String × Cell)) (k : String) : Option Cell :=
  (fields.find? (fun p => p.1 == k)).map (fun p => p.2)

/-- The cell extracted for one metric of one record, lines 91–97 of the
source: the value when the field is present and non-null, `np.nan`
otherwise. -/
def extractCell (e : RawEntry) (srcKey : String) : Cell :=
  match getField e.fields srcKey with
  | some (some v) => some v
  | _ => none

/-- A table row before the derived column: state, parsed date, and the named
extracted cells in `metricKeys` order. -/
structure PreRow where
  state : String
  date : Date
  cells : List (String × Cell)
deriving DecidableEq, Repr

/-- The row extracted from one qualifying record. -/
def mkPreRow (e : RawEntry) (d : Date) : PreRow :=
  ⟨e.state, d, metricKeys.map (fun p => (p.1, extractCell e p.2))⟩

/-- The main extraction loop (lines 82–97): walks the records in order,
collecting every state into `all_locations` and building a row for each record
whose date is on or after `start`.  The first unparseable date aborts the
whole run, as the uncaught `strptime` exception does. -/
def buildRows (start : Date) : List RawEntry → Except String (List String × List PreRow)
  | [] => .ok ([], [])
  | e :: rest =>
    match parseDate e.dateRaw with
    | none => .error ("time data " ++ toString e.dateRaw ++ " does not match format Ymd")
    | some d =>
      match buildRows start rest with
      | .error msg => .error msg
      | .ok (locs, rows) =>
        .ok (e.state :: locs,
             if start.toNum ≤ d.toNum then mkPreRow e d :: rows else rows)

/-- Code-point lexicographic ordering on character lists: the string ordering
used by Python and numpy. -/
def lexLe : List Char → List Char → Bool
  | [], _ => true
  | _ :: _, [] => false
  | a :: as, b :: bs =>
    if a.toNat < b.toNat then true
    else if b.toNat < a.toNat then false
    else lexLe as bs

/-- String ordering by code points. -/
def strLe (a b : String) : Bool := lexLe a.data b.data

/-- The sort key of `df.sort_index(level=1)` on the `(state, date)`
multi-index: primarily by date, remaining level (state) as tiebreak. -/
def rowLe (a b : PreRow) : Bool :=
  a.date.toNum < b.date.toNum ||
    (a.date.toNum == b.date.toNum && strLe a.state b.state)

/-- A finished table row: the extracted cells plus the derived `new_cases`. -/
structure Row where
  state : String
  date : Date
  cells : List (String × Cell)
  new_cases : Cell
deriving DecidableEq, Repr

/-- Difference of two cells with `np.nan` propagation: `np.diff` on a float
array yields `nan` when either operand is `nan`. -/
def subCell : Cell → Cell → Cell
  | some a, some b => some (a - b)
  | _, _ => none

/-- Lookup of a named column in a row's cell list. -/
def cellAt (cells : List (String × Cell)) (col : String) : Cell :=
  match cells.find? (fun p => p.1 == col) with
  | some p => p.2
  | none => none

/-- The last-seen `cum_positive` value of a state while scanning the table. -/
def lastCum (seen : List (String × Cell)) (s : String) : Option Cell :=
  (seen.find? (fun p => p.1 == s)).map (fun p => p.2)

/-- The derived-column pass (lines 106–111): for each state, in the sorted
table order, `new_cases` is `0` on the state's first row and the
`cum_positive` difference with the state's previous row afterwards.  The
per-state grouped diff of the source is realised as one scan carrying each
state's last `cum_positive`, which assigns every row exactly the value
`np.diff` gives it inside its own state group. -/
def addNewCases : List PreRow → List (String × Cell) → List Row
  | [], _ => []
  | r :: rest, seen =>
    let cum := cellAt r.cells "cum_positive"
    match lastCum seen r.state with
    | none => ⟨r.state, r.date, r.cells, some 0⟩ :: addNewCases rest ((r.state, cum) :: seen)
    | some prev => ⟨r.state, r.date, r.cells, subCell cum prev⟩ ::
        addNewCases rest ((r.state, cum) :: seen)

/-- Sorted-unique list of strings: the behaviour of `np.unique` on an array of
state codes. -/
def sortedUnique (l : List String) : List String :=
  (l.dedup).insertionSort (fun a b => strLe a b = true)

/-- The Reshaper, `ExtractDataFrame(json_data, start_date)` of the source:
returns the table of rows (sorted by date then state, with the derived
`new_cases` column) and the sorted-unique list of all states.  Errors model
the `strptime` exception on an unparseable date and the `TypeError` of
`pd.MultiIndex.from_tuples` on an empty index. -/
def ExtractDataFrame (entries : List RawEntry) (start : Date) :
    Except String (List Row × List String) :=
  match buildRows start entries with
  | .error msg => .error msg
  | .ok (locs, rows) =>
    if rows.isEmpty then
      .error "Cannot infer number of levels from empty list"
    else
      .ok (addNewCases (rows.insertionSort (fun a b => rowLe a b = true)) [],
           sortedUnique locs)

/-- The `(state, date)` key of a finished row. -/
def rowKey (r : Row) : String × Date := (r.state, r.date)

/-- A finished row without its derived column. -/
def erasedRow (r : Row) : PreRow := ⟨r.state, r.date, r.cells⟩

/-- The qualifying rows of an input, in input order: the rows `buildRows`
keeps when every date parses. -/
def qualRows (start : Date) (entries : List RawEntry) : List PreRow :=
  entries.filterMap (fun e =>
    match parseDate e.dateRaw with
    | none => none
    | some d => if start.toNum ≤ d.toNum then some (mkPreRow e d) else none)

/-- The file system seen by the Fetcher: a list of (filename, contents). -/
structure FileSystem where
  files : List (String × String)
deriving DecidableEq, Repr

/-- The date tag of the cache file name, `strftime('%Y_%m_%d')`.  Year, month
and day are rendered as decimal numerals; the zero padding of `strftime` is
irrelevant to the claims and elided. -/
def dateTag (d : Date) : String :=
  toString d.year ++ "_" ++ toString d.month ++ "_" ++ toString d.day

/-- The cache file name of line 27 of the source. -/
def cacheFileName (filepath : String) (d : Date) : String :=
  filepath ++ "covidtracking_data_" ++ dateTag d ++ ".json"

/-- The Fetcher, `GetData(filepath, run_date)` of the source: with `today` the
current date, `feed` the body the remote endpoint would return, and `fs` the
file system, returns the data together with the file system after the call.
A present cache file is read and returned unchanged; otherwise the feed is
fetched and written to exactly one new cache file. -/
def GetData (fs : FileSystem) (feed : String) (filepath : String)
    (today : Date) (run_date : Option Date) : String × FileSystem :=
  match fs.files.find? (fun p => p.1 == cacheFileName filepath (run_date.getD today)) with
  | some p => (p.2, fs)
  | none => (feed, ⟨(cacheFileName filepath (run_date.getD today), feed) :: fs.files⟩)

/-- The rows of the table that belong to one state, in table order.  Because
the table is sorted by date, this is the state's own date-sorted sequence. -/
def regionRows (table : List Row) (s : String) : List Row :=
  table.filter (fun r => r.state == s)

/-- The `cum_positive` column of a list of pre-rows. -/
def cumColumn (rows : List PreRow) : List Cell :=
  rows.map (fun r => cellAt r.cells "cum_positive")

/-- The tail step of the per-state difference scan: each value is the
`cum_positive` difference with the previous row, `nan` propagating. -/
def diffGo (prev : Cell) : List Cell → List Cell
  | [] => []
  | c :: rest => subCell c prev :: diffGo c rest

/-- The per-state derived column as `np.zeros` + `np.diff` produce it: `0` at
the head, pairwise differences afterwards. -/
def diffScan : List Cell → List Cell
  | [] => []
  | c :: rest => some 0 :: diffGo c rest

/-- The sorted pre-table of a run whose dates all parse. -/
def sortedPre (start : Date) (entries : List RawEntry) : List PreRow :=
  (qualRows start entries).insertionSort (fun a b => rowLe a b = true)

/-- The `(state, date)` key of a pre-row. -/
def preKey (r : PreRow) : String × Date := (r.state, r.date)

/-- Concrete record of the spec scenario: region AZ, 2020-02-01,
cumulative positive 10. -/
def azEntryA : RawEntry := ⟨"AZ", 20200201, [("positive", some 10)]⟩

/-- Concrete record of the spec scenario: region AZ, 2020-02-02,
cumulative positive 15. -/
def azEntryB : RawEntry := ⟨"AZ", 20200202, [("positive", some 15)]⟩

/-- The scenario input, given in an unsorted order. -/
def azInput : List RawEntry := [azEntryB, azEntryA]

/-- The scenario start date, 2020-02-01. -/
def azStart : Date := ⟨2020, 2, 1⟩

/-- The extracted cells of a record carrying only the `positive` field. -/
def cellsOnlyPositive (v : Int) : List (String × Cell) :=
  [("cum_positive", some v), ("cum_total", none), ("curr_hosp", none),
   ("cum_hosp", none), ("curr_icu", none), ("cum_icu", none),
   ("curr_vent", none), ("cum_vent", none), ("cum_death", none),
   ("new_death", none)]

/-- The table the Reshaper returns on the scenario input. -/
def azTable : List Row :=
  [⟨"AZ", ⟨2020, 2, 1⟩, cellsOnlyPositive 10, some 0⟩,
   ⟨"AZ", ⟨2020, 2, 2⟩, cellsOnlyPositive 15, some 5⟩]

/-- The region list the Reshaper returns on the scenario input. -/
def azLocs : List String := ["AZ"]

/-- An input holding the same record twice: two AZ records with the same
date. -/
def dupInput : List RawEntry := [azEntryA, azEntryA]

/-- The table the Reshaper returns on `dupInput`: the key (AZ, 2020-02-01)
appears on two rows. -/
def dupTable : List Row :=
  [⟨"AZ", ⟨2020, 2, 1⟩, cellsOnlyPositive 10, some 0⟩,
   ⟨"AZ", ⟨2020, 2, 1⟩, cellsOnlyPositive 10, some 0⟩]

/-- An AZ record dated before the scenario start date. -/
def mixEntryOld : RawEntry := ⟨"AZ", 20200105, [("positive", some 1)]⟩

/-- A CA record dated after the scenario start date. -/
def mixEntryCA : RawEntry := ⟨"CA", 20200202, [("positive", some 7)]⟩

/-- An input where every AZ record falls before the start date. -/
def mixInput : List RawEntry := [mixEntryOld, mixEntryCA]

/-- The table the Reshaper returns on `mixInput`: only the CA row. -/
def mixTable : List Row := [⟨"CA", ⟨2020, 2, 2⟩, cellsOnlyPositive 7, some 0⟩]

/-- The region list the Reshaper returns on `mixInput`: AZ is kept although
all of its records were filtered out. -/
def mixLocs : List String := ["AZ", "CA"]

theorem buildRows_ok {start : Date} {entries : List RawEntry}
    {p : List String × List PreRow} (h : buildRows start entries = .ok p) :
    p = (entries.map (fun e => e.state), qualRows start entries) := by
  induction entries generalizing p with
  | nil =>
    simp only [buildRows] at h
    cases h
    simp [qualRows]
  | cons e rest ih =>
    simp only [buildRows] at h
    cases hp : parseDate e.dateRaw with
    | none => rw [hp] at h; cases h
    | some d =>
      rw [hp] at h
      cases hb : buildRows start rest with
      | error m => rw [hb] at h; cases h
      | ok q =>
        rw [hb] at h
        cases h
        have hq := ih hb
        simp only [List.map_cons, qualRows, List.filterMap_cons, hp, hq]
        by_cases hd : start.toNum ≤ d.toNum
        · simp [hd, qualRows]
        · simp [hd, qualRows]

theorem buildRows_isOk (start : Date) (entries : List RawEntry)
    (h : ∀ e ∈ entries, (parseDate e.dateRaw).isSome) :
    buildRows start entries = .ok (entries.map (fun e => e.state), qualRows start entries) := by
  induction entries with
  | nil => simp [buildRows, qualRows]
  | cons e rest ih =>
    have he : (parseDate e.dateRaw).isSome := h e (by simp)
    cases hp : parseDate e.dateRaw with
    | none => rw [hp] at he; cases he
    | some d =>
      have hrest := ih (fun x hx => h x (by simp [hx]))
      simp only [buildRows, hp, hrest, qualRows, List.filterMap_cons, List.map_cons]
      by_cases hd : start.toNum ≤ d.toNum
      · simp [hd, qualRows]
      · simp [hd, qualRows]

theorem buildRows_error (start : Date) (entries : List RawEntry)
    (h : ∃ e ∈ entries, parseDate e.dateRaw = none) :
    ∃ msg, buildRows start entries = .error msg := by
  induction entries with
  | nil => simp at h
  | cons e rest ih =>
    by_cases hp : parseDate e.dateRaw = none
    · exact ⟨"time data " ++ toString e.dateRaw ++ " does not match format Ymd",
        by simp [buildRows, hp]⟩
    · cases hpd : parseDate e.dateRaw with
      | none => exact absurd hpd hp
      | some d =>
        rcases h with ⟨x, hx, hxp⟩
        rcases List.mem_cons.mp hx with rfl | hxr
        · exact absurd hxp hp
        · rcases ih ⟨x, hxr, hxp⟩ with ⟨m, hm⟩
          exact ⟨m, by simp [buildRows, hpd, hm]⟩

theorem ExtractDataFrame_ok {entries : List RawEntry} {start : Date}
    {table : List Row} {locs : List String}
    (h : ExtractDataFrame entries start = .ok (table, locs)) :
    table = addNewCases (sortedPre start entries) [] ∧
      locs = sortedUnique (entries.map (fun e => e.state)) ∧
      qualRows start entries ≠ [] := by
  unfold ExtractDataFrame at h
  cases hb : buildRows start entries with
  | error m => rw [hb] at h; cases h
  | ok p =>
    rw [hb] at h
    have hp := buildRows_ok hb
    subst hp
    dsimp only at h
    by_cases hne : qualRows start entries = []
    · rw [if_pos (by simp [hne])] at h; cases h
    · rw [if_neg (by simp [hne])] at h
      cases h
      exact ⟨rfl, rfl, hne⟩

theorem addNewCases_map_erased :
    ∀ (rows : List PreRow) (seen : List (String × Cell)),
      (addNewCases rows seen).map erasedRow = rows := by
  intro rows
  induction rows with
  | nil => intro seen; simp [addNewCases]
  | cons r rest ih =>
    intro seen
    unfold addNewCases
    cases lastCum seen r.state with
    | none => simp [erasedRow, ih]
    | some prev => simp [erasedRow, ih]

theorem lastCum_cons (t : String) (c : Cell) (seen : List (String × Cell)) (s : String) :
    lastCum ((t, c) :: seen) s = if t == s then some c else lastCum seen s := by
  by_cases h : t == s
  · simp [lastCum, List.find?_cons, h]
  · simp only [Bool.not_eq_true] at h
    simp [lastCum, List.find?_cons, h]

theorem addNewCases_group (s : String) :
    ∀ (rows : List PreRow) (seen : List (String × Cell)),
    ((addNewCases rows seen).filter (fun r => r.state == s)).map (fun r => r.new_cases)
    = (lastCum seen s).elim
        (diffScan (cumColumn (rows.filter (fun r => r.state == s))))
        (fun prev => diffGo prev (cumColumn (rows.filter (fun r => r.state == s)))) := by
  intro rows
  induction rows with
  | nil =>
    intro seen
    cases lastCum seen s <;> simp [addNewCases, cumColumn, diffScan, diffGo]
  | cons r rest ih =>
    intro seen
    by_cases hr : r.state = s
    · subst hr
      have hcons := lastCum_cons r.state (cellAt r.cells "cum_positive") seen r.state
      rw [if_pos (by simp)] at hcons
      cases hseen : lastCum seen r.state with
      | none =>
        simp only [addNewCases, hseen]
        rw [List.filter_cons_of_pos (by simp), List.map_cons, ih, hcons]
        rw [List.filter_cons_of_pos (by simp)]
        simp [cumColumn, diffScan, diffGo]
      | some prev =>
        simp only [addNewCases, hseen]
        rw [List.filter_cons_of_pos (by simp), List.map_cons, ih, hcons]
        rw [List.filter_cons_of_pos (by simp)]
        simp [cumColumn, diffScan, diffGo, hseen]
    · have hrb : (r.state == s) = false := by simp [hr]
      have hcons := lastCum_cons r.state (cellAt r.cells "cum_positive") seen s
      rw [if_neg (by simp [hr])] at hcons
      cases hseen : lastCum seen r.state with
      | none =>
        simp only [addNewCases, hseen]
        rw [List.filter_cons_of_neg (by simp [hrb]), ih, hcons]
        rw [List.filter_cons_of_neg (by simp [hrb])]
      | some prev =>
        simp only [addNewCases, hseen]
        rw [List.filter_cons_of_neg (by simp [hrb]), ih, hcons]
        rw [List.filter_cons_of_neg (by simp [hrb])]

theorem diffGo_length (prev : Cell) (l : List Cell) : (diffGo prev l).length = l.length := by
  induction l generalizing prev with
  | nil => simp [diffGo]
  | cons c rest ih => simp [diffGo, ih]

theorem diffScan_length (l : List Cell) : (diffScan l).length = l.length := by
  cases l with
  | nil => simp [diffScan]
  | cons c rest => simp [diffScan, diffGo_length]

theorem diffGo_get (prev : Cell) (l : List Cell) :
    ∀ (i : Nat) (hi : i < l.length),
      (diffGo prev l).get ⟨i, by rw [diffGo_length]; exact hi⟩
      = subCell (l.get ⟨i, hi⟩)
          (if h0 : i = 0 then prev else l.get ⟨i - 1, by omega⟩) := by
  induction l generalizing prev with
  | nil => intro i hi; simp at hi
  | cons c rest ih =>
    intro i hi
    cases i with
    | zero => simp [diffGo]
    | succ j =>
      have hj : j < rest.length := by simpa using hi
      have := ih c j hj
      cases j with
      | zero => simpa [diffGo] using this
      | succ k => simpa [diffGo] using this

theorem diffScan_get_zero (l : List Cell) (h : 0 < l.length) :
    (diffScan l).get ⟨0, by rw [diffScan_length]; exact h⟩ = some 0 := by
  cases l with
  | nil => simp at h
  | cons c rest => simp [diffScan]

theorem diffScan_get_succ (l : List Cell) (i : Nat) (hi : i + 1 < l.length) :
    (diffScan l).get ⟨i + 1, by rw [diffScan_length]; exact hi⟩
    = subCell (l.get ⟨i + 1, hi⟩) (l.get ⟨i, by omega⟩) := by
  cases l with
  | nil => simp at hi
  | cons c rest =>
    have hj : i < rest.length := by simpa using hi
    have := diffGo_get c rest i hj
    cases i with
    | zero => simpa [diffScan] using this
    | succ k => simpa [diffScan] using this

theorem regionRows_cumColumn {rows : List PreRow} {seen : List (String × Cell)} (s : String) :
    cumColumn (rows.filter (fun r => r.state == s))
    = (regionRows (addNewCases rows seen) s).map
        (fun r => cellAt r.cells "cum_positive") := by
  have he := addNewCases_map_erased rows seen
  conv_lhs => rw [← he]
  rw [List.filter_map, cumColumn, List.map_map]
  rfl

theorem newCasesColumn_eq {entries : List RawEntry} {start : Date}
    {table : List Row} {locs : List String}
    (h : ExtractDataFrame entries start = .ok (table, locs)) (s : String) :
    (regionRows table s).map (fun r => r.new_cases)
    = diffScan ((regionRows table s).map (fun r => cellAt r.cells "cum_positive")) := by
  obtain ⟨ht, -, -⟩ := ExtractDataFrame_ok h
  subst ht
  have hg := addNewCases_group s (sortedPre start entries) []
  have h0 : lastCum [] s = none := rfl
  rw [h0] at hg
  simp only [Option.elim] at hg
  rw [regionRows_cumColumn s] at hg
  exact hg

/-- Helper: the elementwise reading of a per-state column equality. -/
theorem column_elementwise (g : List Row)
    (hcol : g.map (fun r => r.new_cases)
      = diffScan (g.map (fun r => cellAt r.cells "cum_positive"))) :
    (∀ h0 : 0 < g.length, (g.get ⟨0, h0⟩).new_cases = some 0) ∧
    (∀ (i : Nat) (hi : i + 1 < g.length),
      (g.get ⟨i + 1, hi⟩).new_cases
      = subCell (cellAt (g.get ⟨i + 1, hi⟩).cells "cum_positive")
          (cellAt (g.get ⟨i, by omega⟩).cells "cum_positive")) := by
  constructor
  · intro h0
    have h1 : (0 : Nat) < (g.map (fun r => r.new_cases)).length := by simpa using h0
    have lhs : (g.map (fun r => r.new_cases)).get ⟨0, h1⟩ = (g.get ⟨0, h0⟩).new_cases := by
      simp [List.get_eq_getElem, List.getElem_map]
    have step := List.get_of_eq hcol ⟨0, h1⟩
    have rhs := diffScan_get_zero (g.map (fun r => cellAt r.cells "cum_positive"))
      (by simpa using h0)
    rw [← lhs, step]
    exact rhs
  · intro i hi
    have h1 : i + 1 < (g.map (fun r => r.new_cases)).length := by simpa using hi
    have lhs : (g.map (fun r => r.new_cases)).get ⟨i + 1, h1⟩
        = (g.get ⟨i + 1, hi⟩).new_cases := by
      simp [List.get_eq_getElem, List.getElem_map]
    have step := List.get_of_eq hcol ⟨i + 1, h1⟩
    have rhs := diffScan_get_succ (g.map (fun r => cellAt r.cells "cum_positive"))
      i (by simpa using hi)
    rw [← lhs, step, rhs]
    simp [List.get_eq_getElem, List.getElem_map]

theorem lexLe_total : ∀ (as bs : List Char), lexLe as bs = true ∨ lexLe bs as = true := by
  intro as
  induction as with
  | nil => intro bs; left; rfl
  | cons a as ih =>
    intro bs
    cases bs with
    | nil => right; rfl
    | cons b bs =>
      rcases Nat.lt_trichotomy a.toNat b.toNat with hab | hab | hab
      · left; simp [lexLe, hab]
      · have h1 : ¬ a.toNat < b.toNat := by omega
        have h2 : ¬ b.toNat < a.toNat := by omega
        rcases ih bs with h | h
        · left; simp [lexLe, h1, h2, h]
        · right; simp [lexLe, h1, h2, h]
      · right; simp [lexLe, hab]

theorem lexLe_trans : ∀ (as bs cs : List Char),
    lexLe as bs = true → lexLe bs cs = true → lexLe as cs = true := by
  intro as
  induction as with
  | nil => intro bs cs h1 h2; rfl
  | cons a as ih =>
    intro bs cs h1 h2
    cases bs with
    | nil => simp [lexLe] at h1
    | cons b bs =>
      cases cs with
      | nil => simp [lexLe] at h2
      | cons c cs =>
        rcases Nat.lt_trichotomy a.toNat b.toNat with hab | hab | hab
        · rcases Nat.lt_trichotomy b.toNat c.toNat with hbc | hbc | hbc
          · have : a.toNat < c.toNat := by omega
            simp [lexLe, this]
          · have : a.toNat < c.toNat := by omega
            simp [lexLe, this]
          · have hn : ¬ b.toNat < c.toNat := by omega
            simp [lexLe, hn, hbc] at h2
        · rcases Nat.lt_trichotomy b.toNat c.toNat with hbc | hbc | hbc
          · have : a.toNat < c.toNat := by omega
            simp [lexLe, this]
          · have hn1 : ¬ a.toNat < b.toNat := by omega
            have hn2 : ¬ b.toNat < a.toNat := by omega
            have hn3 : ¬ b.toNat < c.toNat := by omega
            have hn4 : ¬ c.toNat < b.toNat := by omega
            have hn5 : ¬ a.toNat < c.toNat := by omega
            have hn6 : ¬ c.toNat < a.toNat := by omega
            simp only [lexLe, if_neg hn1, if_neg hn2] at h1
            simp only [lexLe, if_neg hn3, if_neg hn4] at h2
            simp only [lexLe, if_neg hn5, if_neg hn6]
            exact ih bs cs h1 h2
          · have hn : ¬ b.toNat < c.toNat := by omega
            simp [lexLe, hn, hbc] at h2
        · have hn : ¬ a.toNat < b.toNat := by omega
          simp [lexLe, hn, hab] at h1

theorem strLe_total (a b : String) : strLe a b = true ∨ strLe b a = true :=
  lexLe_total a.data b.data

theorem strLe_trans {a b c : String} (h1 : strLe a b = true) (h2 : strLe b c = true) :
    strLe a c = true :=
  lexLe_trans a.data b.data c.data h1 h2

theorem rowLe_total (a b : PreRow) : rowLe a b = true ∨ rowLe b a = true := by
  unfold rowLe
  rcases Nat.lt_trichotomy a.date.toNum b.date.toNum with h | h | h
  · left; simp [h]
  · rcases strLe_total a.state b.state with hs | hs
    · left; simp [h, hs]
    · right; simp [h, hs]
  · right; simp [h]

theorem rowLe_trans {a b c : PreRow} (h1 : rowLe a b = true) (h2 : rowLe b c = true) :
    rowLe a c = true := by
  unfold rowLe at h1 h2 ⊢
  simp only [Bool.or_eq_true, Bool.and_eq_true, decide_eq_true_eq, beq_iff_eq] at h1 h2 ⊢
  rcases h1 with h1 | ⟨h1e, h1s⟩
  · rcases h2 with h2 | ⟨h2e, h2s⟩
    · left; omega
    · left; omega
  · rcases h2 with h2 | ⟨h2e, h2s⟩
    · left; omega
    · right; exact ⟨by omega, strLe_trans h1s h2s⟩

theorem sortedPre_pairwise (start : Date) (entries : List RawEntry) :
    (sortedPre start entries).Pairwise (fun a b => rowLe a b = true) := by
  haveI ht : IsTotal PreRow (fun a b => rowLe a b = true) := ⟨rowLe_total⟩
  haveI htr : IsTrans PreRow (fun a b => rowLe a b = true) :=
    ⟨fun _ _ _ h1 h2 => rowLe_trans h1 h2⟩
  exact List.sorted_insertionSort _ _

theorem sortedPre_perm (start : Date) (entries : List RawEntry) :
    (sortedPre start entries).Perm (qualRows start entries) :=
  List.perm_insertionSort _ _

theorem table_map_erased {entries : List RawEntry} {start : Date}
    {table : List Row} {locs : List String}
    (h : ExtractDataFrame entries start = .ok (table, locs)) :
    table.map erasedRow = sortedPre start entries := by
  obtain ⟨ht, -, -⟩ := ExtractDataFrame_ok h
  subst ht
  exact addNewCases_map_erased _ _

theorem tableKeys_perm {entries : List RawEntry} {start : Date}
    {table : List Row} {locs : List String}
    (h : ExtractDataFrame entries start = .ok (table, locs)) :
    (table.map rowKey).Perm ((qualRows start entries).map preKey) := by
  have he := table_map_erased h
  have hk : table.map rowKey = (sortedPre start entries).map preKey := by
    rw [← he, List.map_map]; rfl
  rw [hk]
  exact (sortedPre_perm start entries).map preKey

theorem mem_qualRows {start : Date} {entries : List RawEntry} {r : PreRow} :
    r ∈ qualRows start entries
    ↔ ∃ e ∈ entries, ∃ d, parseDate e.dateRaw = some d ∧ start.toNum ≤ d.toNum ∧
        r = mkPreRow e d := by
  simp only [qualRows, List.mem_filterMap]
  constructor
  · rintro ⟨e, he, hf⟩
    cases hp : parseDate e.dateRaw with
    | none => rw [hp] at hf; cases hf
    | some d =>
      rw [hp] at hf
      dsimp only at hf
      by_cases hd : start.toNum ≤ d.toNum
      · rw [if_pos hd] at hf
        exact ⟨e, he, d, hp, hd, (Option.some_inj.mp hf).symm⟩
      · rw [if_neg hd] at hf; cases hf
  · rintro ⟨e, he, d, hp, hd, rfl⟩
    exact ⟨e, he, by rw [hp]; simp [hd]⟩

theorem daysInMonth_le (y m : Nat) : daysInMonth y m ≤ 31 := by
  unfold daysInMonth
  split_ifs <;> simp

theorem parseDate_bounds {n : Nat} {d : Date} (h : parseDate n = some d) :
    1 ≤ d.month ∧ d.month ≤ 12 ∧ 1 ≤ d.day ∧ d.day ≤ 31 := by
  unfold parseDate at h
  dsimp only at h
  split_ifs at h with hc
  cases h
  simp only [Bool.and_eq_true, decide_eq_true_eq] at hc
  obtain ⟨⟨⟨⟨⟨-, -⟩, hm1⟩, hm12⟩, hd1⟩, hdm⟩ := hc
  exact ⟨hm1, hm12, hd1, le_trans hdm (daysInMonth_le _ _)⟩

theorem dateEq_of_toNum {a b : Date}
    (ham : a.month ≤ 99) (had : a.day ≤ 99) (hbm : b.month ≤ 99) (hbd : b.day ≤ 99)
    (h : a.toNum = b.toNum) : a = b := by
  cases a with
  | mk ya ma da =>
    cases b with
    | mk yb mb db =>
      simp only [Date.toNum] at h
      simp only [Date.mk.injEq]
      simp only at ham had hbm hbd
      omega

theorem table_mem_provenance {entries : List RawEntry} {start : Date}
    {table : List Row} {locs : List String}
    (h : ExtractDataFrame entries start = .ok (table, locs)) {r : Row} (hr : r ∈ table) :
    ∃ e ∈ entries, ∃ d, parseDate e.dateRaw = some d ∧ start.toNum ≤ d.toNum ∧
      erasedRow r = mkPreRow e d := by
  have he := table_map_erased h
  have : erasedRow r ∈ sortedPre start entries := by
    rw [← he]
    exact List.mem_map.mpr ⟨r, hr, rfl⟩
  have hq : erasedRow r ∈ qualRows start entries :=
    (sortedPre_perm start entries).mem_iff.mp this
  exact mem_qualRows.mp hq

theorem table_date_bounds {entries : List RawEntry} {start : Date}
    {table : List Row} {locs : List String}
    (h : ExtractDataFrame entries start = .ok (table, locs)) {r : Row} (hr : r ∈ table) :
    r.date.month ≤ 99 ∧ r.date.day ≤ 99 := by
  obtain ⟨e, -, d, hp, -, herase⟩ := table_mem_provenance h hr
  have hd : r.date = d := congrArg PreRow.date herase
  obtain ⟨-, hm, -, hday⟩ := parseDate_bounds hp
  rw [hd]
  exact ⟨by omega, by omega⟩

theorem cellAt_map_assoc {ks : List (String × String)} (f : String × String → Cell)
    {col src : String} (hnd : (ks.map Prod.fst).Nodup) (hmem : (col, src) ∈ ks) :
    cellAt (ks.map (fun p => (p.1, f p))) col = f (col, src) := by
  induction ks with
  | nil => simp at hmem
  | cons k rest ih =>
    rcases List.mem_cons.mp hmem with heq | hm
    · subst heq
      simp [cellAt, List.find?_cons]
    · have hk1 : (k.1 == col) = false := by
        have hnotmem : k.1 ∉ rest.map Prod.fst := (List.nodup_cons.mp hnd).1
        have hcolmem : col ∈ rest.map Prod.fst :=
          List.mem_map.mpr ⟨(col, src), hm, rfl⟩
        simp only [beq_eq_false_iff_ne, ne_eq]
        intro heq
        rw [heq] at hnotmem
        exact hnotmem hcolmem
      have hrest := ih (List.nodup_cons.mp hnd).2 hm
      simpa [cellAt, List.find?_cons, hk1] using hrest

/-- C1: for every region present in the SeriesTable, the derived new-cases
value on the region's first row (in the region's own date-sorted sequence,
which is exactly its row order inside the table) is 0, and on each later row
it equals the `cum_positive` difference with the region's immediately
preceding row; `subCell` returns the missing-value marker whenever either
`cum_positive` operand is the missing-value marker (propagation, not
zero-fill), as stated by the last conjunct. -/
theorem C1_new_cases_derivation (entries : List RawEntry) (start : Date)
    (table : List Row) (locs : List String)
    (h : ExtractDataFrame entries start = .ok (table, locs)) (s : String) :
    (∀ h0 : 0 < (regionRows table s).length,
        ((regionRows table s).get ⟨0, h0⟩).new_cases = some 0) ∧
    (∀ (i : Nat) (hi : i + 1 < (regionRows table s).length),
        ((regionRows table s).get ⟨i + 1, hi⟩).new_cases
        = subCell (cellAt ((regionRows table s).get ⟨i + 1, hi⟩).cells "cum_positive")
            (cellAt ((regionRows table s).get ⟨i, by omega⟩).cells "cum_positive")) ∧
    (∀ a b : Cell, a = none ∨ b = none → subCell a b = none) := by
  refine ⟨(column_elementwise _ (newCasesColumn_eq h s)).1,
          (column_elementwise _ (newCasesColumn_eq h s)).2, ?_⟩
  rintro a b (rfl | rfl)
  · rfl
  · cases a <;> rfl

/-- Witness for C1: the scenario input evaluated at region AZ. -/
theorem C1_witness :
    (∀ h0 : 0 < (regionRows azTable "AZ").length,
        ((regionRows azTable "AZ").get ⟨0, h0⟩).new_cases = some 0) ∧
    (∀ (i : Nat) (hi : i + 1 < (regionRows azTable "AZ").length),
        ((regionRows azTable "AZ").get ⟨i + 1, hi⟩).new_cases
        = subCell (cellAt ((regionRows azTable "AZ").get ⟨i + 1, hi⟩).cells "cum_positive")
            (cellAt ((regionRows azTable "AZ").get ⟨i, by omega⟩).cells "cum_positive")) ∧
    (∀ a b : Cell, a = none ∨ b = none → subCell a b = none) :=
  C1_new_cases_derivation azInput azStart azTable azLocs rfl "AZ"

/-- C5 counterexample: the static `keys` mapping of the source has ten
entries, not nine. -/
theorem C5_counterexample : ¬ metricKeys.length = 9 := by decide

/-- C5 amended: the static mapping has exactly ten entries, so every row of
the SeriesTable holds ten extracted metric cells plus the derived `new_cases`
metric, eleven columns in total. -/
theorem C5_amended :
    metricKeys.length = 10 ∧
    ∀ (entries : List RawEntry) (start : Date) (table : List Row) (locs : List String),
      ExtractDataFrame entries start = .ok (table, locs) →
      ∀ r ∈ table, r.cells.length = 10 := by
  refine ⟨rfl, ?_⟩
  intro entries start table locs h r hr
  obtain ⟨e, -, d, -, -, herase⟩ := table_mem_provenance h hr
  have hc : r.cells = metricKeys.map (fun p => (p.1, extractCell e p.2)) :=
    congrArg PreRow.cells herase
  rw [hc, List.length_map]
  rfl

/-- Witness for C5 amended, at the scenario input. -/
theorem C5_witness :
    metricKeys.length = 10 ∧ ∀ r ∈ azTable, r.cells.length = 10 :=
  ⟨C5_amended.1, C5_amended.2 azInput azStart azTable azLocs rfl⟩

/-- C7 counterexample: an input whose single record has a well-formed date
that falls before the start date; every date parses, yet the Reshaper raises
(the empty index makes `pd.MultiIndex.from_tuples` fail), refuting the claim
that runs whose dates all parse raise no error. -/
theorem C7_counterexample :
    [mixEntryOld].all (fun e => (parseDate e.dateRaw).isSome) = true ∧
    ExtractDataFrame [mixEntryOld] azStart
      = .error "Cannot infer number of levels from empty list" :=
  ⟨by decide, rfl⟩

/-- C7 amended: a record whose date does not parse makes the Reshaper fail
(fail fast, never silently skipped); and when every date parses AND at least
one record survives the start-date filter, the Reshaper returns successfully.
The extra non-emptiness hypothesis is forced by the counterexample: an input
whose records all fall before the start date raises through the empty
index. -/
theorem C7_amended :
    (∀ (entries : List RawEntry) (start : Date),
       (∃ e ∈ entries, parseDate e.dateRaw = none) →
       ∃ msg, ExtractDataFrame entries start = .error msg) ∧
    (∀ (entries : List RawEntry) (start : Date),
       (∀ e ∈ entries, (parseDate e.dateRaw).isSome) →
       (∃ e ∈ entries, ∃ d, parseDate e.dateRaw = some d ∧ start.toNum ≤ d.toNum) →
       ∃ out, ExtractDataFrame entries start = .ok out) := by
  constructor
  · intro entries start hbad
    obtain ⟨m, hm⟩ := buildRows_error start entries hbad
    exact ⟨m, by unfold ExtractDataFrame; rw [hm]⟩
  · rintro entries start hall ⟨e, he, d, hp, hd⟩
    have hb := buildRows_isOk start entries hall
    have hne : qualRows start entries ≠ [] := by
      intro hq
      have hmem : mkPreRow e d ∈ qualRows start entries :=
        mem_qualRows.mpr ⟨e, he, d, hp, hd, rfl⟩
      rw [hq] at hmem
      simp at hmem
    refine ⟨(addNewCases
        ((qualRows start entries).insertionSort (fun a b => rowLe a b = true)) [],
      sortedUnique (entries.map (fun e => e.state))), ?_⟩
    unfold ExtractDataFrame
    rw [hb]
    dsimp only
    rw [if_neg (by simpa using hne)]

/-- Witness for C7 amended: a malformed-date input fails, and the scenario
input succeeds. -/
theorem C7_witness :
    (∃ msg, ExtractDataFrame [⟨"AZ", 999, []⟩] azStart = .error msg) ∧
    (∃ out, ExtractDataFrame azInput azStart = .ok out) :=
  ⟨C7_amended.1 [⟨"AZ", 999, []⟩] azStart ⟨⟨"AZ", 999, []⟩, by decide, by decide⟩,
   C7_amended.2 azInput azStart (by decide)
     ⟨azEntryA, by decide, ⟨2020, 2, 1⟩, by decide, by decide⟩⟩

/-- C8: the Reshaper is a pure function of its inputs — two runs on the same
record collection and the same start date return identical SeriesTable and
RegionSet outputs. -/
theorem C8_deterministic (entries1 entries2 : List RawEntry) (start1 start2 : Date)
    (he : entries1 = entries2) (hs : start1 = start2) :
    ExtractDataFrame entries1 start1 = ExtractDataFrame entries2 start2 := by
  rw [he, hs]

/-- Witness for C8: two runs on the cached scenario input coincide. -/
theorem C8_witness :
    ExtractDataFrame azInput azStart = ExtractDataFrame azInput azStart :=
  C8_deterministic azInput azInput azStart azStart rfl rfl

/-- C9: on a cache hit the Fetcher returns the cached contents and leaves the
file system untouched (no write); on a cache miss it returns the feed and
creates exactly one cache file for that date. -/
theorem C9_cache_behaviour (fs : FileSystem) (feed filepath : String)
    (today : Date) (run_date : Option Date) :
    (∀ p, fs.files.find? (fun q => q.1 == cacheFileName filepath (run_date.getD today))
        = some p → GetData fs feed filepath today run_date = (p.2, fs)) ∧
    (fs.files.find? (fun q => q.1 == cacheFileName filepath (run_date.getD today)) = none →
      GetData fs feed filepath today run_date
        = (feed, ⟨(cacheFileName filepath (run_date.getD today), feed) :: fs.files⟩) ∧
      ((cacheFileName filepath (run_date.getD today), feed) :: fs.files).countP
        (fun q => q.1 == cacheFileName filepath (run_date.getD today)) = 1) := by
  constructor
  · intro p hp
    unfold GetData
    rw [hp]
  · intro hn
    refine ⟨by unfold GetData; rw [hn], ?_⟩
    have hz : fs.files.countP
        (fun q => q.1 == cacheFileName filepath (run_date.getD today)) = 0 := by
      rw [List.countP_eq_zero]
      exact List.find?_eq_none.mp hn
    rw [List.countP_cons]
    simp [hz]

/-- Witness for C9: a miss on the empty file system writes one cache file. -/
theorem C9_witness :
    GetData ⟨[]⟩ "feedbody" "./" azStart none
      = ("feedbody", ⟨[(cacheFileName "./" azStart, "feedbody")]⟩) ∧
    [(cacheFileName "./" azStart, "feedbody")].countP
      (fun q => q.1 == cacheFileName "./" azStart) = 1 :=
  (C9_cache_behaviour ⟨[]⟩ "feedbody" "./" azStart none).2 rfl

/-- C10: when no record survives the start-date filter — in particular on the
empty input — the Reshaper raises instead of returning an empty table,
because the row index is built from an empty tuple list. -/
theorem C10_empty_index_error (entries : List RawEntry) (start : Date)
    (h : ∀ e ∈ entries, ∀ d, parseDate e.dateRaw = some d → ¬ start.toNum ≤ d.toNum) :
    ∃ msg, ExtractDataFrame entries start = .error msg := by
  by_cases hall : ∀ e ∈ entries, (parseDate e.dateRaw).isSome
  · have hb := buildRows_isOk start entries hall
    have hq : qualRows start entries = [] := by
      cases hqe : qualRows start entries with
      | nil => rfl
      | cons r rest =>
        have hmem : r ∈ qualRows start entries := by rw [hqe]; simp
        obtain ⟨e, he, d, hp, hd, -⟩ := mem_qualRows.mp hmem
        exact absurd hd (h e he d hp)
    refine ⟨"Cannot infer number of levels from empty list", ?_⟩
    unfold ExtractDataFrame
    rw [hb, hq]
    simp
  · push_neg at hall
    obtain ⟨e, he, hne⟩ := hall
    have hpn : parseDate e.dateRaw = none := by
      cases hp : parseDate e.dateRaw with
      | none => rfl
      | some d => rw [hp] at hne; simp at hne
    obtain ⟨m, hm⟩ := buildRows_error start entries ⟨e, he, hpn⟩
    exact ⟨m, by unfold ExtractDataFrame; rw [hm]⟩

/-- Witness for C10: the empty record collection makes the Reshaper raise. -/
theorem C10_witness : ∃ msg, ExtractDataFrame [] azStart = .error msg :=
  C10_empty_index_error [] azStart (by simp)

/-- C2: the `(region, date)` key set of the returned SeriesTable is exactly
the set of `(region, date)` pairs of input records whose date is on or after
the start date; and the concrete two-record AZ scenario yields the two-row
table with new-cases 0 and 5. -/
theorem C2_keyset :
    (∀ (entries : List RawEntry) (start : Date) (table : List Row) (locs : List String),
       ExtractDataFrame entries start = .ok (table, locs) →
       ∀ (s : String) (d : Date),
         ((s, d) ∈ table.map rowKey
          ↔ ∃ e ∈ entries, e.state = s ∧ parseDate e.dateRaw = some d ∧
              start.toNum ≤ d.toNum)) ∧
    ExtractDataFrame azInput azStart = .ok (azTable, azLocs) ∧
    azTable.map (fun r => (r.state, r.date, r.new_cases))
      = [("AZ", ⟨2020, 2, 1⟩, some 0), ("AZ", ⟨2020, 2, 2⟩, some 5)] := by
  refine ⟨?_, rfl, rfl⟩
  intro entries start table locs h s d
  rw [(tableKeys_perm h).mem_iff]
  constructor
  · intro hm
    obtain ⟨r, hr, hkey⟩ := List.mem_map.mp hm
    obtain ⟨e, he, d0, hp, hd0, rfl⟩ := mem_qualRows.mp hr
    have hs : e.state = s := congrArg Prod.fst hkey
    have hdd : d0 = d := congrArg Prod.snd hkey
    subst hdd
    exact ⟨e, he, hs, hp, hd0⟩
  · rintro ⟨e, he, hs, hp, hd⟩
    refine List.mem_map.mpr ⟨mkPreRow e d, mem_qualRows.mpr ⟨e, he, d, hp, hd, rfl⟩, ?_⟩
    simp [preKey, mkPreRow, hs]

/-- Witness for C2: the keyset property instantiated on the scenario input at
the key (AZ, 2020-02-01). -/
theorem C2_witness :
    ("AZ", (⟨2020, 2, 1⟩ : Date)) ∈ azTable.map rowKey
    ↔ ∃ e ∈ azInput, e.state = "AZ" ∧ parseDate e.dateRaw = some ⟨2020, 2, 1⟩ ∧
        azStart.toNum ≤ (⟨2020, 2, 1⟩ : Date).toNum :=
  C2_keyset.1 azInput azStart azTable azLocs rfl "AZ" ⟨2020, 2, 1⟩

/-- C3: the returned RegionSet is the sorted, deduplicated set of the region
codes of all input records, regardless of the start-date filter; and on
`mixInput`, whose AZ records all predate the start date, AZ still appears in
the RegionSet while contributing no table row. -/
theorem C3_regionset :
    (∀ (entries : List RawEntry) (start : Date) (table : List Row) (locs : List String),
       ExtractDataFrame entries start = .ok (table, locs) →
       (∀ s, s ∈ locs ↔ s ∈ entries.map (fun e => e.state)) ∧
       locs.Pairwise (fun a b => strLe a b = true) ∧ locs.Nodup) ∧
    ExtractDataFrame mixInput azStart = .ok (mixTable, mixLocs) ∧
    "AZ" ∈ mixLocs ∧ regionRows mixTable "AZ" = [] := by
  refine ⟨?_, rfl, by decide, by decide⟩
  intro entries start table locs h
  obtain ⟨-, hlocs, -⟩ := ExtractDataFrame_ok h
  subst hlocs
  unfold sortedUnique
  refine ⟨?_, ?_, ?_⟩
  · intro s
    rw [(List.perm_insertionSort _ _).mem_iff, List.mem_dedup]
  · haveI : IsTotal String (fun a b => strLe a b = true) := ⟨strLe_total⟩
    haveI : IsTrans String (fun a b => strLe a b = true) :=
      ⟨fun _ _ _ h1 h2 => strLe_trans h1 h2⟩
    exact List.sorted_insertionSort _ _
  · rw [(List.perm_insertionSort _ _).nodup_iff]
    exact List.nodup_dedup _

/-- Witness for C3: the general statement instantiated on `mixInput`. -/
theorem C3_witness :
    (∀ s, s ∈ mixLocs ↔ s ∈ mixInput.map (fun e => e.state)) ∧
    mixLocs.Pairwise (fun a b => strLe a b = true) ∧ mixLocs.Nodup :=
  C3_regionset.1 mixInput azStart mixTable mixLocs rfl

/-- C6: for every qualifying record and every canonical metric, the
SeriesTable row built from the record carries the missing-value marker when
the source field is absent or null, and the unchanged value when it is
present and non-null. -/
theorem C6_missing_value (entries : List RawEntry) (start : Date)
    (table : List Row) (locs : List String)
    (h : ExtractDataFrame entries start = .ok (table, locs)) :
    ∀ e ∈ entries, ∀ d : Date, parseDate e.dateRaw = some d → start.toNum ≤ d.toNum →
      ∃ r ∈ table, r.state = e.state ∧ r.date = d ∧
        ∀ col src : String, (col, src) ∈ metricKeys →
          ((getField e.fields src = none ∨ getField e.fields src = some none) →
            cellAt r.cells col = none) ∧
          (∀ v : Int, getField e.fields src = some (some v) →
            cellAt r.cells col = some v) := by
  intro e he d hp hd
  have hq : mkPreRow e d ∈ qualRows start entries :=
    mem_qualRows.mpr ⟨e, he, d, hp, hd, rfl⟩
  have hsp : mkPreRow e d ∈ sortedPre start entries :=
    (sortedPre_perm start entries).mem_iff.mpr hq
  have hmap := table_map_erased h
  rw [← hmap] at hsp
  obtain ⟨r, hr, herase⟩ := List.mem_map.mp hsp
  refine ⟨r, hr, congrArg PreRow.state herase, congrArg PreRow.date herase, ?_⟩
  intro col src hmem
  have hcells : r.cells = metricKeys.map (fun p => (p.1, extractCell e p.2)) :=
    congrArg PreRow.cells herase
  have hnd : (metricKeys.map Prod.fst).Nodup := by decide
  have hcell : cellAt r.cells col = extractCell e src := by
    rw [hcells]
    exact cellAt_map_assoc (fun p => extractCell e p.2) hnd hmem
  constructor
  · intro habs
    rw [hcell]
    unfold extractCell
    rcases habs with hnone | hnull
    · rw [hnone]
    · rw [hnull]
  · intro v hv
    rw [hcell]
    unfold extractCell
    rw [hv]

/-- Witness for C6: the scenario record, which lacks the
`hospitalizedCurrently` field, gets the missing-value marker in its
`curr_hosp` cell rather than zero or an error. -/
theorem C6_witness :
    (∃ r ∈ azTable, r.state = azEntryA.state ∧ r.date = ⟨2020, 2, 1⟩ ∧
      ∀ col src : String, (col, src) ∈ metricKeys →
        ((getField azEntryA.fields src = none ∨ getField azEntryA.fields src = some none) →
          cellAt r.cells col = none) ∧
        (∀ v : Int, getField azEntryA.fields src = some (some v) →
          cellAt r.cells col = some v)) ∧
    getField azEntryA.fields "hospitalizedCurrently" = none ∧
    cellAt (cellsOnlyPositive 10) "curr_hosp" = none :=
  ⟨C6_missing_value azInput azStart azTable azLocs rfl azEntryA (by decide)
      ⟨2020, 2, 1⟩ (by decide) (by decide), by decide, by decide⟩

/-- C4 counterexample: an input that holds the same AZ record twice yields a
table whose `(region, date)` keys are not unique, refuting the claim for
arbitrary inputs. -/
theorem C4_counterexample :
    ExtractDataFrame dupInput azStart = .ok (dupTable, azLocs) ∧
    ¬ (dupTable.map rowKey).Nodup :=
  ⟨rfl, by decide⟩

/-- C4 amended: when the qualifying records of the input have pairwise
distinct `(region, date)` keys — as the feed's one-record-per-state-per-day
schema provides — the `(region, date)` key is unique across the returned
table and each region's rows are strictly ordered by ascending date (hence no
duplicate dates within a region). -/
theorem C4_amended (entries : List RawEntry) (start : Date)
    (table : List Row) (locs : List String)
    (h : ExtractDataFrame entries start = .ok (table, locs))
    (hnd : ((qualRows start entries).map preKey).Nodup) :
    (table.map rowKey).Nodup ∧
    ∀ s : String,
      ((regionRows table s).map (fun r => r.date.toNum)).Pairwise (· < ·) := by
  have hkeys : (table.map rowKey).Nodup := (tableKeys_perm h).nodup_iff.mpr hnd
  refine ⟨hkeys, ?_⟩
  have hpne : table.Pairwise (fun a b => rowKey a ≠ rowKey b) :=
    List.pairwise_map.mp hkeys
  have hsort := sortedPre_pairwise start entries
  rw [← table_map_erased h] at hsort
  have hple : table.Pairwise (fun a b => rowLe (erasedRow a) (erasedRow b) = true) :=
    List.pairwise_map.mp hsort
  have hcomb := hple.and hpne
  intro s
  unfold regionRows
  rw [List.pairwise_map]
  have hfil : (table.filter (fun r => r.state == s)).Pairwise
      (fun a b => rowLe (erasedRow a) (erasedRow b) = true ∧ rowKey a ≠ rowKey b) :=
    List.Pairwise.sublist (List.filter_sublist table) hcomb
  refine List.Pairwise.imp_of_mem ?_ hfil
  intro a b ha hb hab
  have hamem : a ∈ table := (List.mem_filter.mp ha).1
  have hbmem : b ∈ table := (List.mem_filter.mp hb).1
  have has : a.state = s := by simpa using (List.mem_filter.mp ha).2
  have hbs : b.state = s := by simpa using (List.mem_filter.mp hb).2
  obtain ⟨ham, had⟩ := table_date_bounds h hamem
  obtain ⟨hbm, hbd⟩ := table_date_bounds h hbmem
  obtain ⟨hle, hne⟩ := hab
  simp only [rowLe, erasedRow, Bool.or_eq_true, Bool.and_eq_true,
    decide_eq_true_eq, beq_iff_eq] at hle
  rcases hle with hlt | ⟨heq, -⟩
  · exact hlt
  · exfalso
    apply hne
    have hdate : a.date = b.date := dateEq_of_toNum ham had hbm hbd heq
    unfold rowKey
    rw [has, hbs, hdate]

/-- Witness for C4 amended: the scenario input has distinct keys, and the
conclusion holds on its table. -/
theorem C4_witness :
    ((qualRows azStart azInput).map preKey).Nodup ∧
    ((azTable.map rowKey).Nodup ∧
      ∀ s : String,
        ((regionRows azTable s).map (fun r => r.date.toNum)).Pairwise (· < ·)) :=
  ⟨by decide, C4_amended azInput azStart azTable azLocs rfl (by decide)⟩

end Covid
